import Mathlib

/-!
# CAN bridge logger (ESP32-P4, dual channel): verification development

A shallow embedding of `main/main.c`.  Every task loop is embedded as a function taking the
state and the outcomes of the external calls of one iteration (driver receive and transmit,
semaphore takes, the clock) and returning the new state together with the list of external
calls it makes, in program order.

Machine integers: `uint8_t`, `uint32_t` and `uint64_t` values are `Fin 256`, `Fin (2^32)` and
`Fin (2^64)`, with the wrap-around of `++` written out as `% 4294967296`; the `int` loop
variables are `Int`.
-/

namespace CanLogger

/-! ## Data model -/

/-- The fields of the driver's `twai_message_t` that the program reads. -/
structure twai_message_t where
  identifier : Fin 4294967296
  extd : Bool
  rtr : Bool
  data_length_code : Fin 256
  data : Fin 8 → Fin 256

/-- The queue element `can_log_entry_t`. -/
structure can_log_entry_t where
  interface : Fin 256
  message : twai_message_t
  timestamp : Fin 18446744073709551616

/-- External calls made by the tasks, as recorded in the trace of an iteration. -/
inductive Call where
  | twai_transmit (message : twai_message_t) (timeout_ms : Nat)
  | xQueueSend (entry : can_log_entry_t) (ticks_to_wait : Nat)
  | vTaskDelay (ms : Nat)
  | take_sd_mutex (timeout_ms : Nat)
  | give_sd_mutex
  | take_print_mutex (timeout_ms : Nat)
  | give_print_mutex
  | fflush
  | gpio_set_level (level : Bool)
  | log_can2 (id_str : List Char) (extd rtr : Bool) (dlc : Nat) (data_str : List Char)
      (count : Nat)
  | log_status (led : List Char) (can2_msg bridge_1_3 bridge_3_1 : Nat) (sd : List Char)

/-- `CAN_QUEUE_SIZE`. -/
def CAN_QUEUE_SIZE : Nat := 500

/-! ## printf conversions -/

/-- Upper-case digit of `%X`. -/
def upperDigit : Nat → Char
  | 0 => '0' | 1 => '1' | 2 => '2' | 3 => '3' | 4 => '4' | 5 => '5' | 6 => '6' | 7 => '7'
  | 8 => '8' | 9 => '9' | 10 => 'A' | 11 => 'B' | 12 => 'C' | 13 => 'D' | 14 => 'E'
  | _ => 'F'

/-- Lower-case digit of `%x`, and decimal digit of `%d` and `%u`. -/
def lowerDigit : Nat → Char
  | 0 => '0' | 1 => '1' | 2 => '2' | 3 => '3' | 4 => '4' | 5 => '5' | 6 => '6' | 7 => '7'
  | 8 => '8' | 9 => '9' | 10 => 'a' | 11 => 'b' | 12 => 'c' | 13 => 'd' | 14 => 'e'
  | _ => 'f'

/-- Digits of `n` in base `base`, most significant first, in front of `acc`; `fuel` bounds the
number of digits. -/
def digitsCore (digit : Nat → Char) (base : Nat) : Nat → Nat → List Char → List Char
  | 0, _, acc => acc
  | fuel + 1, n, acc =>
    if n < base then digit n :: acc
    else digitsCore digit base fuel (n / base) (digit (n % base) :: acc)

/-- Digits of `n` in base `base`, most significant first (`"0"` for zero). -/
def digits (digit : Nat → Char) (base n : Nat) : List Char :=
  digitsCore digit base (n + 1) n []

/-- Zero padding on the left up to a minimum field width (the `0` flag with a width). -/
def zeroPad (width : Nat) (l : List Char) : List Char :=
  List.replicate (width - l.length) '0' ++ l

/-- Conversion `%d` of a non-negative value (also `%u`). -/
def fmt_d (n : Nat) : List Char := digits lowerDigit 10 n

/-- Conversion `%08x` (`"%08" PRIx32`). -/
def fmt_08x (n : Nat) : List Char := zeroPad 8 (digits lowerDigit 16 n)

/-- Conversion `%03x` (`"%03" PRIx32`). -/
def fmt_03x (n : Nat) : List Char := zeroPad 3 (digits lowerDigit 16 n)

/-- Conversion `%02X`. -/
def fmt_02X (n : Nat) : List Char := zeroPad 2 (digits upperDigit 16 n)

/-! ### Doubles: `timestamp / 1000000.0` and `%.6f`

A finite non-negative binary64 value is kept as an exact fraction `num / den`.  Conversions and
the division round to nearest, ties to even, to a 53-bit significand; the exponent range is not
modelled, as the values that occur lie between `1e-6` and `2^64 / 1e6`, far inside it. -/

/-- The nearest integer to `n / d`, ties to even. -/
def roundHalfEven (n d : Nat) : Nat :=
  let q := n / d
  let r := n % d
  if 2 * r < d then q
  else if d < 2 * r then q + 1
  else if q % 2 = 0 then q else q + 1

/-- Number of binary digits of `n` (`0` for zero), by halving at most `fuel` times. -/
def bitLengthCore : Nat → Nat → Nat
  | 0, _ => 0
  | fuel + 1, n => if n = 0 then 0 else bitLengthCore fuel (n / 2) + 1

/-- Number of binary digits of `n`. -/
def bitLength (n : Nat) : Nat := bitLengthCore n n

/-- The fraction `n / d` (with `0 < d`) rounded to a 53-bit significand, as a fraction. -/
def roundToDouble (n d : Nat) : Nat × Nat :=
  if n = 0 then (0, 1)
  else
    -- scale by a power of two so that the quotient has 53 or 54 binary digits
    let up := (bitLength d + 53) - bitLength n
    let down := bitLength n - (bitLength d + 53)
    let q := (n * 2 ^ up) / (d * 2 ^ down)
    -- one further halving when it has more than 53 binary digits
    let down := if q < 2 ^ 53 then down else down + 1
    let m := roundHalfEven (n * 2 ^ up) (d * 2 ^ down)
    (m * 2 ^ down, 2 ^ up)

/-- The C expression `timestamp / 1000000.0`: the `uint64_t` is converted to double, then
divided by the double `1000000.0`. -/
def timestamp_sec (timestamp : Nat) : Nat × Nat :=
  let t := roundToDouble timestamp 1
  roundToDouble t.1 (t.2 * 1000000)

/-- Conversion `%.6f` of a non-negative double: the value rounded to six decimals. -/
def fmt_6f (x : Nat × Nat) : List Char :=
  let k := roundHalfEven (x.1 * 1000000) x.2
  fmt_d (k / 1000000) ++ '.' :: zeroPad 6 (fmt_d (k % 1000000))

/-! ## Shared state -/

/-- Increment of a `uint32_t` counter (`x++`), wrapping at `2^32`. -/
def uint32_inc (c : Fin 4294967296) : Fin 4294967296 :=
  ⟨(c.val + 1) % 4294967296, Nat.mod_lt _ (by decide)⟩

/-- The file-scope variables of `main.c`, the function-level `static` variables
(`flush_counter` of `write_can_to_sd`, `counter` of `led_status_task`) and the loop-carried
locals of the tasks.  `log_file` is `none` for `NULL` and otherwise the bytes written so far. -/
structure State where
  can1_msg_count : Fin 4294967296
  can2_msg_count : Fin 4294967296
  can3_msg_count : Fin 4294967296
  bridge_can1_to_can3_count : Fin 4294967296
  bridge_can3_to_can1_count : Fin 4294967296
  sd_card_ready : Bool
  log_file : Option (List Char)
  can_log_queue : List can_log_entry_t
  flush_counter : Int
  counter : Int
  led_state : Bool
  consecutive_empty_1_3 : Int
  consecutive_empty_3_1 : Int

/-- The call `xQueueSend(can_log_queue, &item, 0)`: the item is appended when a slot is free,
else the queue is left as it is; the second component is the result (`pdTRUE` or not). -/
def xQueueSend (queue : List can_log_entry_t) (item : can_log_entry_t) :
    List can_log_entry_t × Bool :=
  if queue.length < CAN_QUEUE_SIZE then (queue ++ [item], true) else (queue, false)

/-- The index values `0 .. 7` of the loops `for (int i = 0; i < 8; i++)`. -/
def idx8 : List (Fin 8) := [0, 1, 2, 3, 4, 5, 6, 7]

/-! ## Storage writer -/

/-- The `switch (entry->interface)` of `write_can_to_sd`. -/
def interface_desc (interface : Fin 256) : List Char :=
  match interface.val with
  | 1 => "CAN1".toList
  | 2 => "CAN2".toList
  | 3 => "CAN3".toList
  | 11 => "CAN1->CAN3".toList
  | 13 => "CAN3->CAN1".toList
  | _ => "UNKNOWN".toList

/-- The function `write_can_to_sd`; `take_ok` tells whether `xSemaphoreTake(sd_mutex, 50 ms)`
succeeds. -/
def write_can_to_sd (s : State) (entry : can_log_entry_t) (take_ok : Bool) :
    State × List Call :=
  match s.sd_card_ready, s.log_file with
  | true, some file =>
    if take_ok then
      -- fprintf(log_file, "%.6f,%08x,%s,Rx,%d,%d", ...)
      let file := file ++ fmt_6f (timestamp_sec entry.timestamp.val) ++ ','
        :: fmt_08x entry.message.identifier.val ++ ','
        :: (if entry.message.extd then "true".toList else "false".toList) ++ ",Rx,".toList
        ++ fmt_d entry.interface.val ++ ',' :: fmt_d entry.message.data_length_code.val
      -- the eight data columns
      let file := idx8.foldl (fun file i =>
        if i.val < entry.message.data_length_code.val then
          file ++ ',' :: fmt_02X (entry.message.data i).val
        else
          file ++ ",00".toList) file
      let file := file ++ ',' :: interface_desc entry.interface ++ ['\n']
      -- if (++flush_counter >= 20) { fflush(log_file); flush_counter = 0; }
      let flush_counter := s.flush_counter + 1
      if flush_counter ≥ 20 then
        ({ s with log_file := some file, flush_counter := 0 },
          [Call.take_sd_mutex 50, Call.fflush, Call.give_sd_mutex])
      else
        ({ s with log_file := some file, flush_counter := flush_counter },
          [Call.take_sd_mutex 50, Call.give_sd_mutex])
    else (s, [Call.take_sd_mutex 50])
  | _, _ => (s, [])

/-- One iteration of the loop of `sd_logging_task`.  `xQueueReceive` (1000 ms) delivers the
head of the queue, or times out on an empty queue; `take_write` and `take_flush` are the
outcomes of the two `xSemaphoreTake(sd_mutex, ..)` calls. -/
def sd_logging_task (s : State) (take_write take_flush : Bool) : State × List Call :=
  let r := match s.can_log_queue with
    | log_entry :: rest => write_can_to_sd { s with can_log_queue := rest } log_entry take_write
    | [] => (s, [])
  if r.1.sd_card_ready && r.1.log_file.isSome then
    if take_flush then (r.1, r.2 ++ [Call.take_sd_mutex 5, Call.fflush, Call.give_sd_mutex])
    else (r.1, r.2 ++ [Call.take_sd_mutex 5])
  else r

/-! ## Display formatting -/

/-- The function `format_can_id`: `snprintf` keeps at most `buffer_size - 1` characters. -/
def format_can_id (id : Fin 4294967296) (extended : Bool) (buffer_size : Nat) : List Char :=
  if extended then (fmt_08x id.val).take (buffer_size - 1)
  else (fmt_03x id.val).take (buffer_size - 1)

/-- The call `strncat(dest, src, n)`: at most `n` characters of `src` are appended. -/
def strncat (dest src : List Char) (n : Nat) : List Char := dest ++ src.take n

/-- The function `format_can_data`, returning the C string left in `buffer`.  The bound passed
to `strncat` is computed in `size_t` (32 bits). -/
def format_can_data (data : Fin 8 → Fin 256) (length : Fin 256) (buffer_size : Nat) :
    List Char :=
  let buffer := idx8.foldl (fun buffer i =>
    if i.val < length.val then
      -- snprintf(temp, sizeof(temp), "%02X ", data[i]) with char temp[4]
      let temp := (fmt_02X (data i).val ++ [' ']).take 3
      strncat buffer temp ((buffer_size + 4294967296 - buffer.length - 1) % 4294967296)
    else buffer) []
  if buffer.length > 0 then buffer.dropLast else buffer

/-! ## Bridge forwarders -/

/-- The two bridge tasks. -/
inductive Bridge where
  | can1_to_can3
  | can3_to_can1
  deriving DecidableEq

/-- The value a bridge task stores in `log_entry.interface`. -/
def Bridge.tag : Bridge → Fin 256
  | .can1_to_can3 => 11
  | .can3_to_can1 => 13

/-- The variables a bridge task works on: its local `consecutive_empty`, its forward counter
(`bridge_can1_to_can3_count`, resp. `bridge_can3_to_can1_count`) and the log queue. -/
structure BridgeVars where
  consecutive_empty : Int
  bridge_count : Fin 4294967296
  can_log_queue : List can_log_entry_t

/-- Outcomes of the external calls of one bridge iteration: `rx` is the frame delivered by
`twai_receive(&message, 0)` (`none` when it does not return `ESP_OK`), `tx_ok` tells whether
`twai_transmit` returns `ESP_OK`, `now` is the value of `get_timestamp_us()`. -/
structure BridgeInput where
  rx : Option twai_message_t
  tx_ok : Bool
  now : Fin 18446744073709551616

/-- One iteration of the `while (1)` loop of `can1_to_can3_bridge_task` / of
`can3_to_can1_bridge_task`; the two bodies differ in the counter and in the tag only. -/
def bridge_task (d : Bridge) (v : BridgeVars) (inp : BridgeInput) : BridgeVars × List Call :=
  match inp.rx with
  | some message =>
    let timestamp := inp.now
    let v := { v with consecutive_empty := 0 }
    if inp.tx_ok then
      let v := { v with bridge_count := uint32_inc v.bridge_count }
      let log_entry : can_log_entry_t :=
        { interface := d.tag, message := message, timestamp := timestamp }
      ({ v with can_log_queue := (xQueueSend v.can_log_queue log_entry).1 },
        [Call.twai_transmit message 1, Call.xQueueSend log_entry 0])
    else (v, [Call.twai_transmit message 1])
  | none =>
    let consecutive_empty := v.consecutive_empty + 1
    if consecutive_empty > 10 then
      ({ v with consecutive_empty := 0 }, [Call.vTaskDelay 1])
    else ({ v with consecutive_empty := consecutive_empty }, [])

/-- One iteration of `can1_to_can3_bridge_task`. -/
def can1_to_can3_bridge_task (s : State) (inp : BridgeInput) : State × List Call :=
  let r := bridge_task .can1_to_can3
    ⟨s.consecutive_empty_1_3, s.bridge_can1_to_can3_count, s.can_log_queue⟩ inp
  ({ s with consecutive_empty_1_3 := r.1.consecutive_empty,
            bridge_can1_to_can3_count := r.1.bridge_count,
            can_log_queue := r.1.can_log_queue }, r.2)

/-- One iteration of `can3_to_can1_bridge_task`. -/
def can3_to_can1_bridge_task (s : State) (inp : BridgeInput) : State × List Call :=
  let r := bridge_task .can3_to_can1
    ⟨s.consecutive_empty_3_1, s.bridge_can3_to_can1_count, s.can_log_queue⟩ inp
  ({ s with consecutive_empty_3_1 := r.1.consecutive_empty,
            bridge_can3_to_can1_count := r.1.bridge_count,
            can_log_queue := r.1.can_log_queue }, r.2)

/-! ## Bus monitor and health reporter -/

/-- One iteration of the loop of `can2_logging_task`: `rx` is the frame delivered by
`twai_receive(&message, 100 ms)`, `take_ok` the outcome of `xSemaphoreTake(print_mutex, 50 ms)`. -/
def can2_logging_task (s : State) (rx : Option twai_message_t)
    (now : Fin 18446744073709551616) (take_ok : Bool) : State × List Call :=
  match rx with
  | some message =>
    let can2_msg_count := uint32_inc s.can2_msg_count
    let timestamp := now
    let id_str := format_can_id message.identifier message.extd 16
    let data_str := format_can_data message.data message.data_length_code 32
    let console :=
      if take_ok then
        [Call.take_print_mutex 50,
         Call.log_can2 id_str message.extd message.rtr message.data_length_code.val data_str
           can2_msg_count.val,
         Call.give_print_mutex]
      else [Call.take_print_mutex 50]
    let log_entry : can_log_entry_t :=
      { interface := 2, message := message, timestamp := timestamp }
    ({ s with can2_msg_count := can2_msg_count,
              can_log_queue := (xQueueSend s.can_log_queue log_entry).1 },
      console ++ [Call.xQueueSend log_entry 0, Call.vTaskDelay 5])
  | none => (s, [Call.vTaskDelay 5])

/-- One iteration of the loop of `led_status_task`; `take_ok` is the outcome of
`xSemaphoreTake(print_mutex, 100 ms)`. -/
def led_status_task (s : State) (take_ok : Bool) : State × List Call :=
  let led_state := !s.led_state
  -- if (counter++ >= 10)
  if s.counter ≥ 10 then
    let s := { s with led_state := led_state, counter := 0 }
    if take_ok then
      (s, [Call.gpio_set_level led_state, Call.take_print_mutex 100,
           Call.log_status (if led_state then "ON".toList else "OFF".toList)
             s.can2_msg_count.val s.bridge_can1_to_can3_count.val
             s.bridge_can3_to_can1_count.val
             (if s.sd_card_ready then "OK".toList else "FAIL".toList),
           Call.give_print_mutex, Call.vTaskDelay 1000])
    else
      (s, [Call.gpio_set_level led_state, Call.take_print_mutex 100, Call.vTaskDelay 1000])
  else
    ({ s with led_state := led_state, counter := s.counter + 1 },
      [Call.gpio_set_level led_state, Call.vTaskDelay 1000])

/-! ## Start-up and the whole program -/

/-- The header row written by `create_log_file`. -/
def csv_header : List Char :=
  "Time Stamp,ID,Extended,Dir,Bus,LEN,D1,D2,D3,D4,D5,D6,D7,D8,Interface\n".toList

/-- The state in which `app_main` creates the tasks: `mount_ok` tells whether `init_sd_card`
returns `ESP_OK`, `create_ok` whether `create_log_file` does (it is called only after a
successful mount). -/
def app_main (mount_ok create_ok : Bool) : State :=
  let s : State :=
    { can1_msg_count := 0, can2_msg_count := 0, can3_msg_count := 0,
      bridge_can1_to_can3_count := 0, bridge_can3_to_can1_count := 0,
      sd_card_ready := false, log_file := none, can_log_queue := [],
      flush_counter := 0, counter := 0, led_state := false,
      consecutive_empty_1_3 := 0, consecutive_empty_3_1 := 0 }
  if mount_ok then
    if create_ok then { s with log_file := some csv_header, sd_card_ready := true }
    else s
  else s

/-- One loop iteration of one of the five tasks, with the outcomes of its external calls. -/
inductive Event where
  | can1_to_can3 (inp : BridgeInput)
  | can3_to_can1 (inp : BridgeInput)
  | can2 (rx : Option twai_message_t) (now : Fin 18446744073709551616) (take_ok : Bool)
  | sd (take_write take_flush : Bool)
  | led (take_ok : Bool)

/-- The effect of one event on the shared state. -/
def step (s : State) : Event → State × List Call
  | .can1_to_can3 inp => can1_to_can3_bridge_task s inp
  | .can3_to_can1 inp => can3_to_can1_bridge_task s inp
  | .can2 rx now take_ok => can2_logging_task s rx now take_ok
  | .sd take_write take_flush => sd_logging_task s take_write take_flush
  | .led take_ok => led_status_task s take_ok

/-- A loop body `body` run once per element of a list of inputs: the final state and all the
calls made, in order. -/
def iterate {σ ι : Type} (body : σ → ι → σ × List Call) (s : σ) : List ι → σ × List Call
  | [] => (s, [])
  | inp :: inps =>
    let r := body s inp
    let r2 := iterate body r.1 inps
    (r2.1, r.2 ++ r2.2)

/-- An interleaving of task iterations. -/
def run (s : State) (events : List Event) : State × List Call := iterate step s events

/-- A bridge task run for several iterations. -/
def bridge_run (d : Bridge) (v : BridgeVars) (inps : List BridgeInput) :
    BridgeVars × List Call :=
  iterate (bridge_task d) v inps

/-- A bridge task run for several iterations while other tasks use the log queue: each
iteration finds the queue in the state given along with its input. -/
def bridge_run_queue (d : Bridge) (v : BridgeVars)
    (inps : List (BridgeInput × List can_log_entry_t)) : BridgeVars × List Call :=
  iterate (fun v inp => bridge_task d { v with can_log_queue := inp.2 } inp.1) v inps

/-- A sequence of calls of `write_can_to_sd`, each with its record and the outcome of its
`xSemaphoreTake`. -/
def write_run (s : State) (calls : List (can_log_entry_t × Bool)) : State × List Call :=
  iterate (fun s c => write_can_to_sd s c.1 c.2) s calls

/-- The health reporter run for several ticks, each with the outcome of its
`xSemaphoreTake`. -/
def led_run (s : State) (takes : List Bool) : State × List Call :=
  iterate led_status_task s takes

/-- The frames passed to `twai_transmit` in a trace, in order. -/
def transmitted : List Call → List twai_message_t
  | [] => []
  | Call.twai_transmit m _ :: cs => m :: transmitted cs
  | _ :: cs => transmitted cs

/-- The frames received in a sequence of bridge iterations, in order. -/
def received (inps : List BridgeInput) : List twai_message_t :=
  inps.filterMap (fun inp => inp.rx)

/-! ## Observations on traces and inputs -/

/-- Number of consecutive empty receives at the end of a sequence of bridge iterations. -/
def trailing_empty (inps : List BridgeInput) : Nat :=
  (inps.reverse.takeWhile (fun inp => inp.rx.isNone)).length

/-- A trace in which the task yields the processor. -/
def yields (calls : List Call) : Prop := ∃ ms, Call.vTaskDelay ms ∈ calls

/-- Number of calls of `write_can_to_sd` in a sequence that write a row: none when storage is
not ready or the file is not open, else those whose lock is acquired. -/
def rows_written (s : State) (calls : List (can_log_entry_t × Bool)) : Nat :=
  if s.sd_card_ready = true ∧ s.log_file.isSome = true then
    (calls.filter (fun c => c.2)).length
  else 0

/-- Number of requests of the console lock in a trace. -/
def snapshot_attempts : List Call → Nat
  | [] => 0
  | Call.take_print_mutex _ :: cs => snapshot_attempts cs + 1
  | _ :: cs => snapshot_attempts cs

/-- The property of a call made while storage is not ready: it is no request of the storage
lock, and if it is a health snapshot, the snapshot reports `FAIL`. -/
def not_ready_call (c : Call) : Prop :=
  (∀ t, c ≠ Call.take_sd_mutex t) ∧
  (∀ led a b d sd, c = Call.log_status led a b d sd → sd = "FAIL".toList)

/-- The frame of the concrete scenario: identifier `0x123`, standard format, length 3, data
`01 02 03` followed by zeros. -/
def scenario_frame : twai_message_t :=
  { identifier := 0x123, extd := false, rtr := false, data_length_code := 3,
    data := fun i => match i.val with
      | 0 => 1
      | 1 => 2
      | 2 => 3
      | _ => 0 }

/-! ## Reading a row back -/

/-- The columns of a CSV row: the text split at every comma. -/
def columns : List Char → List (List Char)
  | [] => [[]]
  | c :: cs =>
    if c = ',' then [] :: columns cs
    else
      match columns cs with
      | [] => [[c]]
      | f :: fs => (c :: f) :: fs

/-- A character that is neither the column separator nor the row terminator. -/
def plainChar (c : Char) : Prop := c ≠ ',' ∧ c ≠ '\n'

/-- Data column `i` as the CSV schema describes it: the two upper-case hex digits of `data[i]`
below the declared length, the pad value `00` from there on. -/
def data_column (m : twai_message_t) (i : Fin 8) : List Char :=
  if i.val < m.data_length_code.val then
    [upperDigit ((m.data i).val / 16), upperDigit ((m.data i).val % 16)]
  else ['0', '0']

/-- The fifteen columns of the row of a log record. -/
def row_columns (e : can_log_entry_t) : List (List Char) :=
  [fmt_6f (timestamp_sec e.timestamp.val), fmt_08x e.message.identifier.val,
   if e.message.extd then "true".toList else "false".toList, "Rx".toList,
   fmt_d e.interface.val, fmt_d e.message.data_length_code.val]
  ++ idx8.map (data_column e.message) ++ [interface_desc e.interface]

/-- Columns joined by commas. -/
def join_columns : List (List Char) → List Char
  | [] => []
  | [f] => f
  | f :: g :: fs => f ++ ',' :: join_columns (g :: fs)

/-! ## Payload display text -/

/-- The two-digit upper-case hex token of a payload byte. -/
def hex_token (b : Fin 256) : List Char :=
  [upperDigit (b.val / 16), upperDigit (b.val % 16)]

/-- Tokens separated by single spaces, with no leading or trailing space. -/
def join_spaces : List (List Char) → List Char
  | [] => []
  | [t] => t
  | t :: u :: ts => t ++ ' ' :: join_spaces (u :: ts)

/-- The display text of a payload as the monitor describes it: the first
`n = min(length, 8)` bytes as hex tokens separated by single spaces. -/
def payload_text (data : Fin 8 → Fin 256) (length : Fin 256) : List Char :=
  join_spaces ((idx8.take (min length.val 8)).map (fun i => hex_token (data i)))

/-- A payload with the bytes `01 02 03 04 05 06 07 08`. -/
def payload_1_to_8 : Fin 8 → Fin 256 :=
  fun i => ⟨i.val + 1, by omega⟩

/-! # Theorems -/

/-! ## Rows written by `write_can_to_sd` -/

theorem columns_ne_nil (l : List Char) : columns l ≠ [] := by
  induction l with
  | nil => simp [columns]
  | cons c cs ih =>
    unfold columns
    split
    · simp
    · split <;> simp

theorem columns_plain (a : List Char) (h : ∀ c ∈ a, c ≠ ',') : columns a = [a] := by
  induction a with
  | nil => rfl
  | cons c cs ih =>
    have hc : c ≠ ',' := h c (List.mem_cons_self _ _)
    have hcs := ih (fun x hx => h x (List.mem_cons_of_mem _ hx))
    simp [columns, hc, hcs]

theorem columns_append_comma (a b : List Char) (h : ∀ c ∈ a, c ≠ ',') :
    columns (a ++ ',' :: b) = a :: columns b := by
  induction a with
  | nil => simp [columns]
  | cons c cs ih =>
    have hc : c ≠ ',' := h c (List.mem_cons_self _ _)
    have hcs := ih (fun x hx => h x (List.mem_cons_of_mem _ hx))
    simp [columns, hc, hcs]

theorem upperDigit_plain (n : Nat) : plainChar (upperDigit n) := by
  unfold upperDigit plainChar
  split <;> decide

theorem lowerDigit_plain (n : Nat) : plainChar (lowerDigit n) := by
  unfold lowerDigit plainChar
  split <;> decide

theorem digitsCore_plain (digit : Nat → Char) (hd : ∀ n, plainChar (digit n)) (base : Nat) :
    ∀ (fuel n : Nat) (acc : List Char), (∀ c ∈ acc, plainChar c) →
      ∀ c ∈ digitsCore digit base fuel n acc, plainChar c := by
  intro fuel
  induction fuel with
  | zero => intro n acc hacc c hc; exact hacc c (by simpa [digitsCore] using hc)
  | succ k ih =>
    intro n acc hacc c hc
    unfold digitsCore at hc
    split at hc
    · rcases List.mem_cons.mp hc with h | h
      · exact h ▸ hd n
      · exact hacc c h
    · refine ih (n / base) _ ?_ c hc
      intro x hx
      rcases List.mem_cons.mp hx with h | h
      · exact h ▸ hd _
      · exact hacc x h

theorem digits_plain (digit : Nat → Char) (hd : ∀ n, plainChar (digit n)) (base n : Nat) :
    ∀ c ∈ digits digit base n, plainChar c :=
  digitsCore_plain digit hd base (n + 1) n [] (by simp)

theorem zeroPad_plain (w : Nat) (l : List Char) (h : ∀ c ∈ l, plainChar c) :
    ∀ c ∈ zeroPad w l, plainChar c := by
  intro c hc
  unfold zeroPad at hc
  rcases List.mem_append.mp hc with h1 | h1
  · rw [(List.mem_replicate.mp h1).2]; exact ⟨by decide, by decide⟩
  · exact h c h1

theorem fmt_d_plain (n : Nat) : ∀ c ∈ fmt_d n, plainChar c :=
  digits_plain lowerDigit lowerDigit_plain 10 n

theorem fmt_08x_plain (n : Nat) : ∀ c ∈ fmt_08x n, plainChar c :=
  zeroPad_plain 8 _ (digits_plain lowerDigit lowerDigit_plain 16 n)

theorem fmt_6f_plain (x : Nat × Nat) : ∀ c ∈ fmt_6f x, plainChar c := by
  intro c hc
  unfold fmt_6f at hc
  rcases List.mem_append.mp hc with h | h
  · exact fmt_d_plain _ c h
  · rcases List.mem_cons.mp h with h | h
    · rw [h]; exact ⟨by decide, by decide⟩
    · exact zeroPad_plain 6 _ (fmt_d_plain _) c h

theorem interface_desc_plain (t : Fin 256) : ∀ c ∈ interface_desc t, plainChar c := by
  unfold interface_desc plainChar
  split <;> decide

theorem fmt_02X_byte (b : Fin 256) :
    fmt_02X b.val = [upperDigit (b.val / 16), upperDigit (b.val % 16)] := by
  obtain ⟨n, hn⟩ := b
  simp only [fmt_02X, digits]
  by_cases h : n < 16
  · have h0 : n / 16 = 0 := Nat.div_eq_of_lt h
    have h1 : n % 16 = n := Nat.mod_eq_of_lt h
    simp [digitsCore, h, h0, h1, zeroPad, upperDigit]
  · obtain ⟨k, rfl⟩ : ∃ k, n = k + 1 := ⟨n - 1, by omega⟩
    have h2 : (k + 1) / 16 < 16 := by omega
    simp [digitsCore, h, h2, zeroPad]


theorem foldl_data_columns (m : twai_message_t) (l : List (Fin 8)) (file : List Char) :
    l.foldl (fun file i =>
        if i.val < m.data_length_code.val then file ++ ',' :: fmt_02X (m.data i).val
        else file ++ ",00".toList) file
      = file ++ (l.map (fun i => ',' :: data_column m i)).foldr (fun a b => a ++ b) [] := by
  induction l generalizing file with
  | nil => simp
  | cons i l ih =>
    simp only [List.foldl_cons, List.map_cons, List.foldr_cons, ih]
    by_cases h : i.val < m.data_length_code.val
    · simp [h, data_column, fmt_02X_byte]
    · simp [h, data_column]

theorem write_can_to_sd_file (s : State) (e : can_log_entry_t) (file : List Char)
    (hready : s.sd_card_ready = true) (hfile : s.log_file = some file) :
    (write_can_to_sd s e true).1.log_file
      = some (file ++ join_columns (row_columns e) ++ ['\n']) := by
  unfold write_can_to_sd
  simp only [hready, hfile, if_true, foldl_data_columns]
  split <;> simp [row_columns, join_columns, idx8]


theorem columns_join_columns : ∀ (fs : List (List Char)), fs ≠ [] →
    (∀ f ∈ fs, ∀ c ∈ f, plainChar c) → columns (join_columns fs) = fs
  | [], h, _ => absurd rfl h
  | [f], _, hp => by
    simpa [join_columns] using columns_plain f (fun c hc => (hp f (by simp) c hc).1)
  | f :: g :: fs, _, hp => by
    have ih := columns_join_columns (g :: fs) (by simp)
      (fun x hx => hp x (List.mem_cons_of_mem _ hx))
    simp only [join_columns]
    rw [columns_append_comma f _ (fun c hc => (hp f (by simp) c hc).1), ih]

theorem mem_join_columns : ∀ (fs : List (List Char)),
    (∀ f ∈ fs, ∀ c ∈ f, plainChar c) → ∀ c ∈ join_columns fs, c ≠ '\n'
  | [], _, c, hc => by simp [join_columns] at hc
  | [f], hp, c, hc => by
    simp only [join_columns] at hc
    exact (hp f (by simp) c hc).2
  | f :: g :: fs, hp, c, hc => by
    simp only [join_columns] at hc
    rcases List.mem_append.mp hc with h | h
    · exact (hp f (by simp) c h).2
    · rcases List.mem_cons.mp h with h | h
      · rw [h]; decide
      · exact mem_join_columns (g :: fs) (fun x hx => hp x (List.mem_cons_of_mem _ hx)) c h

theorem data_column_plain (m : twai_message_t) (i : Fin 8) :
    ∀ c ∈ data_column m i, plainChar c := by
  intro c hc
  unfold data_column at hc
  split at hc
  · simp only [List.mem_cons, List.mem_singleton, List.not_mem_nil, or_false] at hc
    rcases hc with h | h <;> rw [h] <;> exact upperDigit_plain _
  · simp only [List.mem_cons, List.mem_singleton, List.not_mem_nil, or_false] at hc
    rcases hc with h | h <;> rw [h] <;> exact ⟨by decide, by decide⟩

theorem row_columns_plain (e : can_log_entry_t) :
    ∀ f ∈ row_columns e, ∀ c ∈ f, plainChar c := by
  intro f hf
  simp only [row_columns, idx8, List.map_cons, List.map_nil, List.cons_append,
    List.nil_append, List.mem_cons, List.mem_singleton, List.not_mem_nil, or_false] at hf
  rcases hf with h | h | h | h | h | h | h | h | h | h | h | h | h | h | h <;> subst h
  · exact fmt_6f_plain _
  · exact fmt_08x_plain _
  · split <;> (unfold plainChar; decide)
  · unfold plainChar; decide
  · exact fmt_d_plain _
  · exact fmt_d_plain _
  all_goals first | exact data_column_plain _ _ | exact interface_desc_plain _

/-- C1. Every record that `write_can_to_sd` writes (storage ready, file open, lock acquired)
appends exactly one row, terminated by a newline, of 6 + 8 + 1 columns; data column `i` is the
two-digit upper-case hex of `data[i]` for `i < data_length_code` and `00` otherwise, whatever
the value of `data_length_code`. -/
theorem write_can_to_sd_eight_data_columns (s : State) (e : can_log_entry_t)
    (file : List Char) (hready : s.sd_card_ready = true) (hfile : s.log_file = some file) :
    ∃ row : List Char,
      (write_can_to_sd s e true).1.log_file = some (file ++ row ++ ['\n']) ∧
      (∀ c ∈ row, c ≠ '\n') ∧
      (columns row).length = 6 + 8 + 1 ∧
      ∀ i : Fin 8, (columns row)[6 + i.val]? = some
        (if i.val < e.message.data_length_code.val then
          [upperDigit ((e.message.data i).val / 16), upperDigit ((e.message.data i).val % 16)]
         else ['0', '0']) := by
  refine ⟨join_columns (row_columns e), write_can_to_sd_file s e file hready hfile,
    mem_join_columns _ (row_columns_plain e), ?_, ?_⟩
  · rw [columns_join_columns _ (by simp [row_columns]) (row_columns_plain e)]
    simp [row_columns, idx8]
  · intro i
    rw [columns_join_columns _ (by simp [row_columns]) (row_columns_plain e)]
    fin_cases i <;> simp [row_columns, idx8, data_column] <;> rfl

theorem write_can_to_sd_eight_data_columns_witness :
    ∃ row : List Char,
      (write_can_to_sd (app_main true true) ⟨11, scenario_frame, 1000000⟩ true).1.log_file
        = some (csv_header ++ row ++ ['\n']) ∧
      (∀ c ∈ row, c ≠ '\n') ∧
      (columns row).length = 6 + 8 + 1 ∧
      ∀ i : Fin 8, (columns row)[6 + i.val]? = some
        (if i.val < scenario_frame.data_length_code.val then
          [upperDigit ((scenario_frame.data i).val / 16),
           upperDigit ((scenario_frame.data i).val % 16)]
         else ['0', '0']) :=
  write_can_to_sd_eight_data_columns (app_main true true) ⟨11, scenario_frame, 1000000⟩
    csv_header rfl rfl

/-- C2. The concrete scenario: the CAN1->CAN3 forwarder, receiving a standard frame with
identifier 0x123, length 3 and data 01 02 03 at 1000000 microseconds and transmitting it with
success, offers the log queue the record with tag 11, and `write_can_to_sd` (storage ready,
lock acquired) renders that record as the row
`1.000000,00000123,false,Rx,11,3,01,02,03,00,00,00,00,00,CAN1->CAN3` and a newline. -/
theorem scenario_row (s1 s : State) (file : List Char) (m : twai_message_t)
    (hid : m.identifier = 0x123) (hext : m.extd = false) (hdlc : m.data_length_code = 3)
    (h0 : m.data 0 = 1) (h1 : m.data 1 = 2) (h2 : m.data 2 = 3)
    (hready : s.sd_card_ready = true) (hfile : s.log_file = some file) :
    (can1_to_can3_bridge_task s1 ⟨some m, true, 1000000⟩).2
      = [Call.twai_transmit m 1, Call.xQueueSend ⟨11, m, 1000000⟩ 0] ∧
    (write_can_to_sd s ⟨11, m, 1000000⟩ true).1.log_file = some (file ++
      "1.000000,00000123,false,Rx,11,3,01,02,03,00,00,00,00,00,CAN1->CAN3\n".toList) := by
  refine ⟨by simp [can1_to_can3_bridge_task, bridge_task, Bridge.tag], ?_⟩
  rw [write_can_to_sd_file s _ file hready hfile, List.append_assoc]
  have hrow : join_columns (row_columns ⟨11, m, 1000000⟩) ++ ['\n']
      = "1.000000,00000123,false,Rx,11,3,01,02,03,00,00,00,00,00,CAN1->CAN3\n".toList := by
    have e3 : ¬ ((3 : Fin 8).val < (3 : Fin 256).val) := by decide
    have e4 : ¬ ((4 : Fin 8).val < (3 : Fin 256).val) := by decide
    have e5 : ¬ ((5 : Fin 8).val < (3 : Fin 256).val) := by decide
    have e6 : ¬ ((6 : Fin 8).val < (3 : Fin 256).val) := by decide
    have e7 : ¬ ((7 : Fin 8).val < (3 : Fin 256).val) := by decide
    simp only [row_columns, idx8, List.map_cons, List.map_nil, data_column, hid, hext, hdlc, h0,
      h1, h2, if_neg e3, if_neg e4, if_neg e5, if_neg e6, if_neg e7]
    decide
  rw [hrow]

theorem scenario_row_witness :
    (can1_to_can3_bridge_task (app_main true true) ⟨some scenario_frame, true, 1000000⟩).2
      = [Call.twai_transmit scenario_frame 1,
         Call.xQueueSend ⟨11, scenario_frame, 1000000⟩ 0] ∧
    (write_can_to_sd (app_main true true) ⟨11, scenario_frame, 1000000⟩ true).1.log_file
      = some (csv_header ++
        "1.000000,00000123,false,Rx,11,3,01,02,03,00,00,00,00,00,CAN1->CAN3\n".toList) :=
  scenario_row (app_main true true) (app_main true true) csv_header scenario_frame rfl rfl rfl
    rfl rfl rfl rfl rfl

/-! ## Bridge forwarders -/

theorem iterate_append {σ ι : Type} (body : σ → ι → σ × List Call) (s : σ) (a b : List ι) :
    iterate body s (a ++ b)
      = ((iterate body (iterate body s a).1 b).1,
         (iterate body s a).2 ++ (iterate body (iterate body s a).1 b).2) := by
  induction a generalizing s with
  | nil => simp [iterate]
  | cons x xs ih => simp [iterate, ih, List.append_assoc]

theorem transmitted_append (a b : List Call) :
    transmitted (a ++ b) = transmitted a ++ transmitted b := by
  induction a with
  | nil => rfl
  | cons c cs ih => cases c <;> simp [transmitted, ih]

theorem uint32_inc_val (c : Fin 4294967296) : (uint32_inc c).val = (c.val + 1) % 4294967296 :=
  rfl

/-- C3 (as amended). In a run of a bridge task in which every transmit attempt succeeds, the
frames passed to `twai_transmit` are the frames received, unchanged and in arrival order, and
the forward counter, a `uint32_t`, ends at its initial value plus the number of forwarded
frames modulo 2^32; it is the plain sum whenever that sum is below 2^32. -/
theorem bridge_run_all_transmitted (d : Bridge) (v : BridgeVars) (inps : List BridgeInput)
    (htx : ∀ inp ∈ inps, inp.tx_ok = true) :
    transmitted (bridge_run d v inps).2 = received inps ∧
    (bridge_run d v inps).1.bridge_count.val
      = (v.bridge_count.val + (received inps).length) % 4294967296 ∧
    (v.bridge_count.val + (received inps).length < 4294967296 →
      (bridge_run d v inps).1.bridge_count.val = v.bridge_count.val + (received inps).length)
    := by
  have key : transmitted (bridge_run d v inps).2 = received inps ∧
      (bridge_run d v inps).1.bridge_count.val
        = (v.bridge_count.val + (received inps).length) % 4294967296 := by
    induction inps generalizing v with
    | nil =>
      have := v.bridge_count.isLt
      simp only [bridge_run, iterate, transmitted, received, List.filterMap_nil, List.length_nil,
        Nat.add_zero, true_and]
      omega
    | cons inp inps ih =>
      have htx0 : inp.tx_ok = true := htx inp (List.mem_cons_self _ _)
      have ih2 := fun v => ih v (fun x hx => htx x (List.mem_cons_of_mem _ hx))
      simp only [bridge_run] at ih2 ⊢
      simp only [iterate, transmitted_append]
      cases hrx : inp.rx with
      | none =>
        have hst : (bridge_task d v inp).1.bridge_count = v.bridge_count ∧
            transmitted (bridge_task d v inp).2 = [] := by
          simp only [bridge_task, hrx]
          split <;> simp [transmitted]
        rw [(ih2 _).1, (ih2 _).2, hst.1, hst.2]
        simp [received, hrx]
      | some m =>
        have hst : (bridge_task d v inp).1.bridge_count = uint32_inc v.bridge_count ∧
            transmitted (bridge_task d v inp).2 = [m] := by
          simp [bridge_task, hrx, htx0, transmitted]
        rw [(ih2 _).1, (ih2 _).2, hst.1, hst.2, uint32_inc_val]
        simp only [received, List.filterMap_cons, hrx, List.length_cons, List.singleton_append,
          true_and]
        omega
  refine ⟨key.1, key.2, fun h => ?_⟩
  rw [key.2, Nat.mod_eq_of_lt h]

theorem bridge_run_all_transmitted_witness :
    (∀ inp ∈ [(⟨some scenario_frame, true, 1⟩ : BridgeInput), ⟨none, true, 2⟩,
        ⟨some scenario_frame, true, 3⟩], inp.tx_ok = true) ∧
    transmitted (bridge_run .can3_to_can1 ⟨0, 0, []⟩
        [⟨some scenario_frame, true, 1⟩, ⟨none, true, 2⟩, ⟨some scenario_frame, true, 3⟩]).2
      = [scenario_frame, scenario_frame] ∧
    (bridge_run .can3_to_can1 ⟨0, 0, []⟩
        [⟨some scenario_frame, true, 1⟩, ⟨none, true, 2⟩,
         ⟨some scenario_frame, true, 3⟩]).1.bridge_count.val = 2 :=
  ⟨by simp,
   (bridge_run_all_transmitted .can3_to_can1 ⟨0, 0, []⟩
      [⟨some scenario_frame, true, 1⟩, ⟨none, true, 2⟩, ⟨some scenario_frame, true, 3⟩]
      (by simp)).1,
   (bridge_run_all_transmitted .can3_to_can1 ⟨0, 0, []⟩
      [⟨some scenario_frame, true, 1⟩, ⟨none, true, 2⟩, ⟨some scenario_frame, true, 3⟩]
      (by simp)).2.1⟩

/-- C3, as stated, fails when the counter wraps: from the counter value 2^32 - 1 one received
frame, transmitted with success, leaves the counter at 0 and not at 2^32. -/
theorem forward_counter_wraps :
    (∀ inp ∈ [(⟨some scenario_frame, true, 1000000⟩ : BridgeInput)], inp.tx_ok = true) ∧
    (received [⟨some scenario_frame, true, 1000000⟩]).length = 1 ∧
    (bridge_run .can1_to_can3 ⟨0, 4294967295, []⟩
      [⟨some scenario_frame, true, 1000000⟩]).1.bridge_count.val = 0 ∧
    (bridge_run .can1_to_can3 ⟨0, 4294967295, []⟩
      [⟨some scenario_frame, true, 1000000⟩]).1.bridge_count.val
      ≠ (4294967295 : Fin 4294967296).val + (received [⟨some scenario_frame, true, 1000000⟩]).length := by
  refine ⟨by simp, rfl, by decide, by decide⟩

/-- C4. An iteration of a bridge task whose receive succeeds and whose transmit fails makes
exactly one call, the single transmit attempt (no retry, nothing offered to the log queue),
and leaves the forward counter and the log queue unchanged. -/
theorem bridge_transmit_failure_drops (d : Bridge) (v : BridgeVars) (s : State)
    (m : twai_message_t) (now : Fin 18446744073709551616) :
    ((bridge_task d v ⟨some m, false, now⟩).2 = [Call.twai_transmit m 1] ∧
     (bridge_task d v ⟨some m, false, now⟩).1.bridge_count = v.bridge_count ∧
     (bridge_task d v ⟨some m, false, now⟩).1.can_log_queue = v.can_log_queue) ∧
    ((can1_to_can3_bridge_task s ⟨some m, false, now⟩).2 = [Call.twai_transmit m 1] ∧
     (can1_to_can3_bridge_task s ⟨some m, false, now⟩).1.bridge_can1_to_can3_count
       = s.bridge_can1_to_can3_count ∧
     (can1_to_can3_bridge_task s ⟨some m, false, now⟩).1.can_log_queue = s.can_log_queue) ∧
    ((can3_to_can1_bridge_task s ⟨some m, false, now⟩).2 = [Call.twai_transmit m 1] ∧
     (can3_to_can1_bridge_task s ⟨some m, false, now⟩).1.bridge_can3_to_can1_count
       = s.bridge_can3_to_can1_count ∧
     (can3_to_can1_bridge_task s ⟨some m, false, now⟩).1.can_log_queue = s.can_log_queue) := by
  simp [bridge_task, can1_to_can3_bridge_task, can3_to_can1_bridge_task]

theorem bridge_task_queue_blind (d : Bridge) (v1 v2 : BridgeVars) (i1 i2 : BridgeInput)
    (hce : v1.consecutive_empty = v2.consecutive_empty)
    (hcnt : v1.bridge_count = v2.bridge_count)
    (hrx : i1.rx = i2.rx) (htx : i1.tx_ok = i2.tx_ok) :
    (bridge_task d v1 i1).1.consecutive_empty = (bridge_task d v2 i2).1.consecutive_empty ∧
    (bridge_task d v1 i1).1.bridge_count = (bridge_task d v2 i2).1.bridge_count ∧
    transmitted (bridge_task d v1 i1).2 = transmitted (bridge_task d v2 i2).2 := by
  simp only [bridge_task, ← hrx, ← htx, hce, hcnt]
  cases i1.rx with
  | none => dsimp only; split <;> simp [transmitted]
  | some m => dsimp only; split <;> simp [transmitted]

theorem bridge_task_send_zero_wait (d : Bridge) (v : BridgeVars) (inp : BridgeInput)
    (e : can_log_entry_t) (w : Nat) (h : Call.xQueueSend e w ∈ (bridge_task d v inp).2) :
    w = 0 ∧ e.interface = d.tag := by
  unfold bridge_task at h
  split at h
  · split at h
    · simp at h; simp [h]
    · simp at h
  · dsimp only at h
    split at h <;> simp at h

theorem mem_iterate {σ ι : Type} (body : σ → ι → σ × List Call) (P : Call → Prop)
    (hbody : ∀ s inp, ∀ c ∈ (body s inp).2, P c) (s : σ) (inps : List ι) :
    ∀ c ∈ (iterate body s inps).2, P c := by
  induction inps generalizing s with
  | nil => simp [iterate]
  | cons x xs ih =>
    intro c hc
    simp only [iterate] at hc
    rcases List.mem_append.mp hc with h | h
    · exact hbody s x c h
    · exact ih _ c h

/-- C5. Two runs of a bridge task with the same receive and transmit outcomes, in which the log
queue is in arbitrary, different states at every iteration (full in one, empty in the other),
transmit the same frames and end with the same forward counter and the same consecutive-empty
counter; every `xQueueSend` is made with zero wait. -/
theorem forwarding_independent_of_log_queue (d : Bridge) (v1 v2 : BridgeVars)
    (run1 run2 : List (BridgeInput × List can_log_entry_t))
    (hce : v1.consecutive_empty = v2.consecutive_empty)
    (hcnt : v1.bridge_count = v2.bridge_count)
    (hsame : run1.map (fun r => (r.1.rx, r.1.tx_ok)) = run2.map (fun r => (r.1.rx, r.1.tx_ok))) :
    transmitted (bridge_run_queue d v1 run1).2 = transmitted (bridge_run_queue d v2 run2).2 ∧
    (bridge_run_queue d v1 run1).1.bridge_count = (bridge_run_queue d v2 run2).1.bridge_count ∧
    (bridge_run_queue d v1 run1).1.consecutive_empty
      = (bridge_run_queue d v2 run2).1.consecutive_empty ∧
    (∀ e w, Call.xQueueSend e w ∈ (bridge_run_queue d v1 run1).2 → w = 0) := by
  have key : ∀ (run1 run2 : List (BridgeInput × List can_log_entry_t)) (v1 v2 : BridgeVars),
      v1.consecutive_empty = v2.consecutive_empty → v1.bridge_count = v2.bridge_count →
      run1.map (fun r => (r.1.rx, r.1.tx_ok)) = run2.map (fun r => (r.1.rx, r.1.tx_ok)) →
      transmitted (bridge_run_queue d v1 run1).2 = transmitted (bridge_run_queue d v2 run2).2 ∧
      (bridge_run_queue d v1 run1).1.bridge_count
        = (bridge_run_queue d v2 run2).1.bridge_count ∧
      (bridge_run_queue d v1 run1).1.consecutive_empty
        = (bridge_run_queue d v2 run2).1.consecutive_empty := by
    intro run1
    induction run1 with
    | nil =>
      intro run2 v1 v2 hce hcnt hsame
      cases run2 with
      | nil => simp [bridge_run_queue, iterate, hce, hcnt]
      | cons y ys => simp at hsame
    | cons x xs ih =>
      intro run2 v1 v2 hce hcnt hsame
      cases run2 with
      | nil => simp at hsame
      | cons y ys =>
        simp only [List.map_cons, List.cons.injEq, Prod.mk.injEq] at hsame
        have hstep := bridge_task_queue_blind d { v1 with can_log_queue := x.2 }
          { v2 with can_log_queue := y.2 } x.1 y.1 hce hcnt hsame.1.1 hsame.1.2
        have hrest := ih ys _ _ hstep.1 hstep.2.1 hsame.2
        simp only [bridge_run_queue] at hrest ⊢
        simp only [iterate, transmitted_append]
        exact ⟨by rw [hstep.2.2, hrest.1], hrest.2.1, hrest.2.2⟩
  obtain ⟨h1, h2, h3⟩ := key run1 run2 v1 v2 hce hcnt hsame
  refine ⟨h1, h2, h3, fun e w hmem => ?_⟩
  exact mem_iterate _ (fun c => ∀ e w, c = Call.xQueueSend e w → w = 0)
    (fun s inp c hc e w hcw => (bridge_task_send_zero_wait d _ _ e w (hcw ▸ hc)).1)
    v1 run1 _ hmem e w rfl

theorem forwarding_independent_of_log_queue_witness :
    transmitted (bridge_run_queue .can1_to_can3 ⟨0, 0, []⟩
        [(⟨some scenario_frame, true, 1000000⟩,
          List.replicate 500 ⟨2, scenario_frame, 7⟩)]).2
      = transmitted (bridge_run_queue .can1_to_can3 ⟨0, 0, []⟩
        [(⟨some scenario_frame, true, 1000000⟩, [])]).2 ∧
    (bridge_run_queue .can1_to_can3 ⟨0, 0, []⟩
        [(⟨some scenario_frame, true, 1000000⟩,
          List.replicate 500 ⟨2, scenario_frame, 7⟩)]).1.bridge_count
      = (bridge_run_queue .can1_to_can3 ⟨0, 0, []⟩
        [(⟨some scenario_frame, true, 1000000⟩, [])]).1.bridge_count ∧
    (bridge_run_queue .can1_to_can3 ⟨0, 0, []⟩
        [(⟨some scenario_frame, true, 1000000⟩,
          List.replicate 500 ⟨2, scenario_frame, 7⟩)]).1.consecutive_empty
      = (bridge_run_queue .can1_to_can3 ⟨0, 0, []⟩
        [(⟨some scenario_frame, true, 1000000⟩, [])]).1.consecutive_empty ∧
    (∀ e w, Call.xQueueSend e w ∈ (bridge_run_queue .can1_to_can3 ⟨0, 0, []⟩
        [(⟨some scenario_frame, true, 1000000⟩,
          List.replicate 500 ⟨2, scenario_frame, 7⟩)]).2 → w = 0) :=
  forwarding_independent_of_log_queue .can1_to_can3 ⟨0, 0, []⟩ ⟨0, 0, []⟩
    [(⟨some scenario_frame, true, 1000000⟩, List.replicate 500 ⟨2, scenario_frame, 7⟩)]
    [(⟨some scenario_frame, true, 1000000⟩, [])] rfl rfl rfl

/-! ## Back-off -/

theorem trailing_empty_snoc (inps : List BridgeInput) (inp : BridgeInput) :
    trailing_empty (inps ++ [inp])
      = if inp.rx.isNone = true then trailing_empty inps + 1 else 0 := by
  unfold trailing_empty
  rw [List.reverse_append, List.reverse_singleton, List.singleton_append, List.takeWhile_cons]
  split <;> simp

theorem bridge_task_consecutive_empty (d : Bridge) (v : BridgeVars) (inp : BridgeInput) :
    (bridge_task d v inp).1.consecutive_empty
      = if inp.rx.isNone = true then
          (if v.consecutive_empty + 1 > 10 then 0 else v.consecutive_empty + 1)
        else 0 := by
  unfold bridge_task
  cases inp.rx with
  | none => dsimp only; split <;> simp
  | some m => dsimp only; split <;> simp

theorem bridge_task_yields (d : Bridge) (v : BridgeVars) (inp : BridgeInput) :
    yields (bridge_task d v inp).2 ↔ inp.rx = none ∧ v.consecutive_empty + 1 > 10 := by
  unfold bridge_task yields
  cases inp.rx with
  | none => dsimp only; split <;> simp [*]
  | some m => dsimp only; split <;> simp

theorem bridge_run_consecutive_empty (d : Bridge) (v : BridgeVars) (inps : List BridgeInput)
    (h0 : v.consecutive_empty = 0) :
    (bridge_run d v inps).1.consecutive_empty = ((trailing_empty inps % 11 : Nat) : Int) := by
  induction inps using List.reverseRecOn with
  | nil => simp [bridge_run, iterate, trailing_empty, h0]
  | append_singleton inps inp ih =>
    simp only [bridge_run] at ih ⊢
    rw [iterate_append]
    simp only [iterate, bridge_task_consecutive_empty, ih, trailing_empty_snoc]
    split
    · split <;> omega
    · simp

/-- C10. Back-off of a bridge task started with `consecutive_empty = 0`: at the start of every
iteration the counter lies in 0..10 and equals the number of consecutive empty receives so far
modulo 11; the iteration yields exactly when its receive is empty and the counter is 10, that
is, when it is the 11th consecutive empty receive since the last reset; a yield resets the
counter to 0, and a successful receive resets it to 0 and never yields, whatever the transmit
outcome. -/
theorem bridge_backoff (d : Bridge) (v : BridgeVars) (inps : List BridgeInput)
    (inp : BridgeInput) (h0 : v.consecutive_empty = 0) :
    (0 ≤ (bridge_run d v inps).1.consecutive_empty ∧
      (bridge_run d v inps).1.consecutive_empty ≤ 10) ∧
    (bridge_run d v inps).1.consecutive_empty = ((trailing_empty inps % 11 : Nat) : Int) ∧
    (yields (bridge_task d (bridge_run d v inps).1 inp).2 ↔
      inp.rx = none ∧ (bridge_run d v inps).1.consecutive_empty = 10) ∧
    (yields (bridge_task d (bridge_run d v inps).1 inp).2 ↔
      inp.rx = none ∧ trailing_empty (inps ++ [inp]) % 11 = 0) ∧
    (yields (bridge_task d (bridge_run d v inps).1 inp).2 →
      (bridge_task d (bridge_run d v inps).1 inp).1.consecutive_empty = 0) ∧
    (inp.rx ≠ none →
      (bridge_task d (bridge_run d v inps).1 inp).1.consecutive_empty = 0 ∧
      ¬ yields (bridge_task d (bridge_run d v inps).1 inp).2) := by
  have hce := bridge_run_consecutive_empty d v inps h0
  have hy := bridge_task_yields d (bridge_run d v inps).1 inp
  have hc := bridge_task_consecutive_empty d (bridge_run d v inps).1 inp
  refine ⟨by omega, hce, ?_, ?_, ?_, ?_⟩
  · rw [hy]; constructor <;> rintro ⟨a, b⟩ <;> exact ⟨a, by omega⟩
  · rw [hy, trailing_empty_snoc]
    constructor
    · rintro ⟨a, b⟩
      refine ⟨a, ?_⟩
      simp only [a, Option.isNone_none, if_true]
      omega
    · rintro ⟨a, b⟩
      refine ⟨a, ?_⟩
      simp only [a, Option.isNone_none, if_true] at b
      omega
  · intro hyield
    have := hy.mp hyield
    rw [hc]
    simp [this.1, this.2]
  · intro hrx
    constructor
    · rw [hc]
      cases h : inp.rx with
      | none => exact absurd h hrx
      | some m => simp
    · rw [hy]
      exact fun h => hrx h.1

theorem bridge_backoff_witness :
    yields (bridge_task .can1_to_can3
      (bridge_run .can1_to_can3 ⟨0, 0, []⟩ (List.replicate 10 ⟨none, false, 0⟩)).1
      ⟨none, false, 0⟩).2 :=
  (bridge_backoff .can1_to_can3 ⟨0, 0, []⟩ (List.replicate 10 ⟨none, false, 0⟩)
    ⟨none, false, 0⟩ rfl).2.2.1.mpr ⟨rfl, by decide⟩

/-! ## Forced flush -/

theorem write_can_to_sd_ready (s : State) (e : can_log_entry_t) (ok : Bool) :
    (write_can_to_sd s e ok).1.sd_card_ready = s.sd_card_ready ∧
    (write_can_to_sd s e ok).1.log_file.isSome = s.log_file.isSome := by
  unfold write_can_to_sd
  split
  · split
    · dsimp only
      split <;> simp [*]
    · exact ⟨rfl, rfl⟩
  · exact ⟨rfl, rfl⟩

theorem write_can_to_sd_flush (s : State) (e : can_log_entry_t) (ok : Bool) :
    (Call.fflush ∈ (write_can_to_sd s e ok).2 ↔
      (s.sd_card_ready = true ∧ s.log_file.isSome = true ∧ ok = true) ∧
        s.flush_counter + 1 ≥ 20) ∧
    (write_can_to_sd s e ok).1.flush_counter
      = if s.sd_card_ready = true ∧ s.log_file.isSome = true ∧ ok = true then
          (if s.flush_counter + 1 ≥ 20 then 0 else s.flush_counter + 1)
        else s.flush_counter := by
  unfold write_can_to_sd
  split
  · rename_i file hr hf
    cases ok with
    | true =>
      dsimp only
      simp only [if_true]
      split <;> simp [*]
    | false => simp
  · rename_i hne
    have : ¬ (s.sd_card_ready = true ∧ s.log_file.isSome = true ∧ ok = true) := by
      rintro ⟨h1, h2, -⟩
      obtain ⟨f, hf⟩ := Option.isSome_iff_exists.mp h2
      exact hne f h1 hf
    simp [this]


theorem write_run_ready (s : State) (calls : List (can_log_entry_t × Bool)) :
    (write_run s calls).1.sd_card_ready = s.sd_card_ready ∧
    (write_run s calls).1.log_file.isSome = s.log_file.isSome := by
  induction calls generalizing s with
  | nil => exact ⟨rfl, rfl⟩
  | cons c cs ih =>
    have h1 := write_can_to_sd_ready s c.1 c.2
    have h2 := ih (write_can_to_sd s c.1 c.2).1
    simp only [write_run, iterate] at h2 ⊢
    exact ⟨h2.1.trans h1.1, h2.2.trans h1.2⟩

theorem rows_written_snoc (s : State) (calls : List (can_log_entry_t × Bool))
    (c : can_log_entry_t × Bool) :
    rows_written s (calls ++ [c])
      = rows_written s calls
        + if s.sd_card_ready = true ∧ s.log_file.isSome = true ∧ c.2 = true then 1 else 0 := by
  unfold rows_written
  by_cases h : s.sd_card_ready = true ∧ s.log_file.isSome = true
  · cases hc : c.2 <;> simp [h, hc, List.filter_append, List.filter_cons]
  · have h2 : ¬ (s.sd_card_ready = true ∧ s.log_file.isSome = true ∧ c.2 = true) :=
      fun h3 => h ⟨h3.1, h3.2.1⟩
    simp [h, h2]

theorem write_run_flush_counter (s : State) (calls : List (can_log_entry_t × Bool))
    (h0 : s.flush_counter = 0) :
    (write_run s calls).1.flush_counter = ((rows_written s calls % 20 : Nat) : Int) := by
  induction calls using List.reverseRecOn with
  | nil => simp [write_run, iterate, rows_written, h0]
  | append_singleton calls c ih =>
    have hr := write_run_ready s calls
    simp only [write_run] at ih hr ⊢
    rw [iterate_append]
    simp only [iterate, (write_can_to_sd_flush _ _ _).2, ih, hr.1, hr.2, rows_written_snoc]
    split
    · split <;> omega
    · simp

theorem write_run_forces_flush (s : State) (es : List can_log_entry_t)
    (hready : s.sd_card_ready = true) (hfile : s.log_file.isSome = true)
    (hfc : s.flush_counter ≤ 19) (hlen : 20 ≤ s.flush_counter + es.length) :
    Call.fflush ∈ (write_run s (es.map (fun e => (e, true)))).2 := by
  induction es generalizing s with
  | nil => simp at hlen; omega
  | cons e es ih =>
    simp only [write_run, List.map_cons, iterate, List.mem_append]
    have hstep := write_can_to_sd_flush s e true
    have hrdy := write_can_to_sd_ready s e true
    by_cases h20 : s.flush_counter + 1 ≥ 20
    · exact Or.inl (hstep.1.mpr ⟨⟨hready, hfile, rfl⟩, h20⟩)
    · refine Or.inr (ih _ (hrdy.1.trans hready) (hrdy.2.trans hfile) ?_ ?_)
      · rw [hstep.2]; simp only [hready, hfile, and_self, if_true, h20, if_false]; omega
      · rw [hstep.2]; simp only [hready, hfile, and_self, if_true, h20, if_false]
        simp only [List.length_cons, Nat.cast_add, Nat.cast_one] at hlen
        omega

/-- C6. Starting from `flush_counter = 0`, after any sequence of calls of `write_can_to_sd`
the counter lies in 0..19 and equals the number of rows written modulo 20; the next call forces
a flush exactly when it writes a row and that row is the 20th, 40th, 60th, ... written; a call
that drops its record leaves the counter as it is; and 20 consecutive successful writes always
contain a forced flush. -/
theorem forced_flush_every_20th (s : State) (calls : List (can_log_entry_t × Bool))
    (e : can_log_entry_t) (ok : Bool) (h0 : s.flush_counter = 0) :
    (0 ≤ (write_run s calls).1.flush_counter ∧ (write_run s calls).1.flush_counter ≤ 19) ∧
    (write_run s calls).1.flush_counter = ((rows_written s calls % 20 : Nat) : Int) ∧
    (Call.fflush ∈ (write_can_to_sd (write_run s calls).1 e ok).2 ↔
      (s.sd_card_ready = true ∧ s.log_file.isSome = true ∧ ok = true) ∧
        (rows_written s calls + 1) % 20 = 0) ∧
    (¬ (s.sd_card_ready = true ∧ s.log_file.isSome = true ∧ ok = true) →
      (write_can_to_sd (write_run s calls).1 e ok).1.flush_counter
        = (write_run s calls).1.flush_counter) ∧
    (∀ es : List can_log_entry_t, es.length = 20 →
      s.sd_card_ready = true → s.log_file.isSome = true →
      Call.fflush ∈ (write_run (write_run s calls).1 (es.map (fun e => (e, true)))).2) := by
  have hfc := write_run_flush_counter s calls h0
  have hr := write_run_ready s calls
  have hstep := write_can_to_sd_flush (write_run s calls).1 e ok
  rw [hr.1, hr.2] at hstep
  refine ⟨by omega, hfc, ?_, ?_, ?_⟩
  · rw [hstep.1]
    constructor <;> rintro ⟨a, b⟩ <;> exact ⟨a, by omega⟩
  · intro hdrop
    rw [hstep.2, if_neg hdrop]
  · intro es hlen hready hfile
    refine write_run_forces_flush _ es (hr.1.trans hready) (hr.2.trans hfile) (by omega) ?_
    rw [hlen]
    have : (0 : Int) ≤ (write_run s calls).1.flush_counter := by omega
    push_cast
    omega

theorem forced_flush_every_20th_witness :
    Call.fflush ∈ (write_can_to_sd
      (write_run (app_main true true)
        (List.replicate 19 (⟨11, scenario_frame, 1000000⟩, true))).1
      ⟨11, scenario_frame, 1000000⟩ true).2 :=
  (forced_flush_every_20th (app_main true true)
    (List.replicate 19 (⟨11, scenario_frame, 1000000⟩, true))
    ⟨11, scenario_frame, 1000000⟩ true rfl).2.2.1.mpr ⟨⟨rfl, rfl, rfl⟩, by decide⟩

/-! ## Health reporter -/

theorem snapshot_attempts_append (a b : List Call) :
    snapshot_attempts (a ++ b) = snapshot_attempts a + snapshot_attempts b := by
  induction a with
  | nil => simp [snapshot_attempts]
  | cons c cs ih => cases c <;> simp [snapshot_attempts, ih, Nat.add_right_comm]

theorem led_status_task_counter (s : State) (ok : Bool) :
    (led_status_task s ok).1.counter = (if s.counter ≥ 10 then 0 else s.counter + 1) ∧
    snapshot_attempts (led_status_task s ok).2 = (if s.counter ≥ 10 then 1 else 0) := by
  unfold led_status_task
  dsimp only
  split
  · cases ok <;> simp [snapshot_attempts]
  · simp [snapshot_attempts]

theorem led_run_schedule (s : State) (takes : List Bool) (h0 : s.counter = 0) :
    (led_run s takes).1.counter = ((takes.length % 11 : Nat) : Int) ∧
    snapshot_attempts (led_run s takes).2 = takes.length / 11 := by
  induction takes using List.reverseRecOn with
  | nil => simp [led_run, iterate, snapshot_attempts, h0]
  | append_singleton takes t ih =>
    simp only [led_run] at ih ⊢
    rw [iterate_append]
    simp only [iterate, snapshot_attempts_append, List.append_nil,
      (led_status_task_counter _ _).1, (led_status_task_counter _ _).2, ih.1, ih.2,
      List.length_append, List.length_singleton]
    split <;> constructor <;> omega

/-- C7 fails on the code: `if (counter++ >= 10)` is first true on the 11th tick, so the console
lock is not requested at all during the first 10 ticks, whatever the lock outcomes, and is
requested once in the first 11; in general the first `k` ticks hold `k / 11` attempts. -/
theorem led_status_snapshot_every_11_ticks :
    snapshot_attempts (led_run (app_main true true) (List.replicate 10 true)).2 = 0 ∧
    snapshot_attempts (led_run (app_main true true) (List.replicate 10 false)).2 = 0 ∧
    snapshot_attempts (led_run (app_main true true) (List.replicate 11 true)).2 = 1 ∧
    (∀ (mount_ok create_ok : Bool) (takes : List Bool),
      snapshot_attempts (led_run (app_main mount_ok create_ok) takes).2 = takes.length / 11) := by
  refine ⟨by decide, by decide, by decide, fun mount_ok create_ok takes => ?_⟩
  refine (led_run_schedule _ takes ?_).2
  cases mount_ok <;> cases create_ok <;> rfl

/-! ## Storage readiness -/

theorem step_sd_card_ready (s : State) (ev : Event) :
    (step s ev).1.sd_card_ready = s.sd_card_ready := by
  cases ev with
  | can1_to_can3 inp => rfl
  | can3_to_can1 inp => rfl
  | can2 rx now ok =>
    cases rx <;> rfl
  | sd tw tf =>
    simp only [step, sd_logging_task]
    cases hq : s.can_log_queue with
    | nil => dsimp only; split <;> [split; skip] <;> rfl
    | cons e rest =>
      dsimp only
      have := (write_can_to_sd_ready { s with can_log_queue := rest } e tw).1
      split <;> [split; skip] <;> simpa using this
  | led ok =>
    simp only [step, led_status_task]
    split <;> [split; skip] <;> rfl

theorem write_can_to_sd_not_ready (s : State) (e : can_log_entry_t) (ok : Bool)
    (h : s.sd_card_ready = false) : write_can_to_sd s e ok = (s, []) := by
  unfold write_can_to_sd
  split
  · rename_i h1 _
    rw [h] at h1
    exact absurd h1 (by decide)
  · rfl

theorem step_not_ready (s : State) (ev : Event) (h : s.sd_card_ready = false) :
    (step s ev).1.log_file = s.log_file ∧
    (step s ev).1.flush_counter = s.flush_counter ∧
    ∀ c ∈ (step s ev).2, not_ready_call c := by
  cases ev with
  | can1_to_can3 inp =>
    refine ⟨rfl, rfl, ?_⟩
    simp only [step, can1_to_can3_bridge_task, bridge_task]
    cases inp.rx with
    | none => dsimp only; split <;> simp [not_ready_call]
    | some m => dsimp only; split <;> simp [not_ready_call]
  | can3_to_can1 inp =>
    refine ⟨rfl, rfl, ?_⟩
    simp only [step, can3_to_can1_bridge_task, bridge_task]
    cases inp.rx with
    | none => dsimp only; split <;> simp [not_ready_call]
    | some m => dsimp only; split <;> simp [not_ready_call]
  | can2 rx now ok =>
    cases rx with
    | none => exact ⟨rfl, rfl, by simp [step, can2_logging_task, not_ready_call]⟩
    | some m =>
      refine ⟨rfl, rfl, ?_⟩
      cases ok <;> simp [step, can2_logging_task, not_ready_call]
  | sd tw tf =>
    simp only [step, sd_logging_task]
    cases hq : s.can_log_queue with
    | nil => simp [h]
    | cons e rest =>
      have hw := write_can_to_sd_not_ready { s with can_log_queue := rest } e tw h
      simp only [hw]
      simp [h]
  | led ok =>
    simp only [step, led_status_task]
    split
    · cases ok with
      | false => simp [not_ready_call]
      | true =>
        refine ⟨rfl, rfl, ?_⟩
        intro c hc
        simp only [if_true, h, List.mem_cons, List.mem_singleton, List.not_mem_nil,
          or_false] at hc
        rcases hc with hc | hc | hc | hc | hc <;> subst hc
        all_goals refine ⟨fun t ht => (by cases ht), ?_⟩
        all_goals intro led a b d sd heq
        all_goals cases heq
        rfl
    · simp [not_ready_call]

theorem run_not_ready (s : State) (events : List Event) (h : s.sd_card_ready = false) :
    (run s events).1.sd_card_ready = false ∧
    (run s events).1.log_file = s.log_file ∧
    (run s events).1.flush_counter = s.flush_counter ∧
    ∀ c ∈ (run s events).2, not_ready_call c := by
  induction events generalizing s with
  | nil => simp [run, iterate, h]
  | cons ev evs ih =>
    have h1 := step_sd_card_ready s ev
    have h2 := step_not_ready s ev h
    have h3 := ih (step s ev).1 (h1.trans h)
    simp only [run] at h3 ⊢
    simp only [iterate]
    refine ⟨h3.1, h3.2.1.trans h2.1, h3.2.2.1.trans h2.2.1, ?_⟩
    intro c hc
    rcases List.mem_append.mp hc with hc | hc
    · exact h2.2.2 c hc
    · exact h3.2.2.2 c hc

/-- C8. No iteration of any task changes `sd_card_ready`; if it is false when the tasks start,
it is false after every interleaving of task iterations, and there `write_can_to_sd` drops its
record (state unchanged, no call made, so the storage lock is not requested); throughout the run
the file and the row counter stay as they were, the storage lock is never requested, and every
health snapshot reports `FAIL`. -/
theorem storage_not_ready_latch (s : State) (events : List Event)
    (h : s.sd_card_ready = false) :
    (∀ (s1 : State) (ev : Event), (step s1 ev).1.sd_card_ready = s1.sd_card_ready) ∧
    (run s events).1.sd_card_ready = false ∧
    (∀ (e : can_log_entry_t) (ok : Bool),
      write_can_to_sd (run s events).1 e ok = ((run s events).1, [])) ∧
    ((run s events).1.log_file = s.log_file ∧
      (run s events).1.flush_counter = s.flush_counter ∧
      ∀ t, Call.take_sd_mutex t ∉ (run s events).2) ∧
    (∀ led a b d sd, Call.log_status led a b d sd ∈ (run s events).2 → sd = "FAIL".toList) := by
  have hr := run_not_ready s events h
  refine ⟨step_sd_card_ready, hr.1, fun e ok => write_can_to_sd_not_ready _ e ok hr.1,
    ⟨hr.2.1, hr.2.2.1, fun t ht => (hr.2.2.2 _ ht).1 t rfl⟩,
    fun led a b d sd hmem => (hr.2.2.2 _ hmem).2 led a b d sd rfl⟩

theorem storage_not_ready_latch_witness :
    (run (app_main true false)
      ([Event.can1_to_can3 ⟨some scenario_frame, true, 1000000⟩, Event.sd true true]
        ++ List.replicate 11 (Event.led true))).1.sd_card_ready = false :=
  (storage_not_ready_latch (app_main true false)
      ([Event.can1_to_can3 ⟨some scenario_frame, true, 1000000⟩, Event.sd true true]
        ++ List.replicate 11 (Event.led true)) rfl).2.1

/-! ## Interface labels -/

theorem interface_desc_unknown (t : Fin 256) (h1 : t ≠ 1) (h2 : t ≠ 2) (h3 : t ≠ 3)
    (h11 : t ≠ 11) (h13 : t ≠ 13) : interface_desc t = "UNKNOWN".toList := by
  unfold interface_desc
  split
  · rename_i h; exact absurd (Fin.ext h) h1
  · rename_i h; exact absurd (Fin.ext h) h2
  · rename_i h; exact absurd (Fin.ext h) h3
  · rename_i h; exact absurd (Fin.ext h) h11
  · rename_i h; exact absurd (Fin.ext h) h13
  · rfl

theorem step_send_tag (s : State) (ev : Event) (e : can_log_entry_t) (w : Nat)
    (h : Call.xQueueSend e w ∈ (step s ev).2) :
    e.interface = 11 ∨ e.interface = 13 ∨ e.interface = 2 := by
  cases ev with
  | can1_to_can3 inp =>
    exact Or.inl (bridge_task_send_zero_wait .can1_to_can3 _ inp e w h).2
  | can3_to_can1 inp =>
    exact Or.inr (Or.inl (bridge_task_send_zero_wait .can3_to_can1 _ inp e w h).2)
  | can2 rx now ok =>
    cases rx with
    | none => simp [step, can2_logging_task] at h
    | some m =>
      cases ok <;> simp [step, can2_logging_task] at h <;> simp [h]
  | sd tw tf =>
    exfalso
    simp only [step, sd_logging_task] at h
    have hw : ∀ (s : State) (x : can_log_entry_t) (b : Bool),
        Call.xQueueSend e w ∉ (write_can_to_sd s x b).2 := by
      intro s x b
      unfold write_can_to_sd
      split
      · split
        · dsimp only; split <;> simp
        · simp
      · simp
    cases hq : s.can_log_queue with
    | nil =>
      rw [hq] at h
      dsimp only at h
      split at h <;> [split at h; skip] <;> simp at h
    | cons x rest =>
      rw [hq] at h
      dsimp only at h
      split at h <;> [split at h; skip] <;> simp [hw] at h
  | led ok =>
    exfalso
    simp only [step, led_status_task] at h
    split at h <;> [split at h; skip] <;> simp at h

/-- C9. The label of `write_can_to_sd` is a total function of the tag: 1, 2, 3, 11 and 13 give
`CAN1`, `CAN2`, `CAN3`, `CAN1->CAN3` and `CAN3->CAN1`, every other tag in 0..255 gives
`UNKNOWN`; the label is the last column of the row written; and every record that an iteration
of any task offers to the log queue carries tag 11, 13 or 2, so its label is not `UNKNOWN`. -/
theorem interface_label_total :
    (interface_desc 1 = "CAN1".toList ∧ interface_desc 2 = "CAN2".toList ∧
      interface_desc 3 = "CAN3".toList ∧ interface_desc 11 = "CAN1->CAN3".toList ∧
      interface_desc 13 = "CAN3->CAN1".toList) ∧
    (∀ t : Fin 256, t ≠ 1 → t ≠ 2 → t ≠ 3 → t ≠ 11 → t ≠ 13 →
      interface_desc t = "UNKNOWN".toList) ∧
    (∀ (s : State) (e : can_log_entry_t) (file : List Char),
      s.sd_card_ready = true → s.log_file = some file →
      ∃ row : List Char,
        (write_can_to_sd s e true).1.log_file = some (file ++ row ++ ['\n']) ∧
        (columns row).getLast? = some (interface_desc e.interface)) ∧
    (∀ (s : State) (ev : Event) (e : can_log_entry_t) (w : Nat),
      Call.xQueueSend e w ∈ (step s ev).2 →
      (e.interface = 11 ∨ e.interface = 13 ∨ e.interface = 2) ∧
      interface_desc e.interface ≠ "UNKNOWN".toList) := by
  refine ⟨⟨rfl, rfl, rfl, rfl, rfl⟩, interface_desc_unknown, ?_, ?_⟩
  · intro s e file hready hfile
    refine ⟨join_columns (row_columns e), write_can_to_sd_file s e file hready hfile, ?_⟩
    rw [columns_join_columns _ (by simp [row_columns]) (row_columns_plain e)]
    simp [row_columns, idx8]
  · intro s ev e w h
    have ht := step_send_tag s ev e w h
    refine ⟨ht, ?_⟩
    rcases ht with h1 | h1 | h1 <;> rw [h1] <;> decide

theorem interface_label_total_witness :
    interface_desc 7 = "UNKNOWN".toList ∧ interface_desc 255 = "UNKNOWN".toList ∧
    interface_desc 0 = "UNKNOWN".toList :=
  ⟨interface_label_total.2.1 7 (by decide) (by decide) (by decide) (by decide) (by decide),
   interface_label_total.2.1 255 (by decide) (by decide) (by decide) (by decide) (by decide),
   interface_label_total.2.1 0 (by decide) (by decide) (by decide) (by decide) (by decide)⟩

/-! ## Payload display text -/

theorem upperDigit_ne_space (n : Nat) : upperDigit n ≠ ' ' := by
  unfold upperDigit
  split <;> decide

theorem dropLast_spaced_tokens : ∀ ts : List (List Char),
    ((ts.map (fun t => t ++ [' '])).foldr (fun a b => a ++ b) []).dropLast = join_spaces ts
  | [] => rfl
  | [t] => by simp [join_spaces]
  | t :: u :: ts => by
    have ih := dropLast_spaced_tokens (u :: ts)
    have hne : ((u :: ts).map (fun t => t ++ [' '])).foldr (fun a b => a ++ b) [] ≠ [] := by
      simp
    simp only [List.map_cons, List.foldr_cons, join_spaces] at ih hne ⊢
    rw [List.append_assoc, List.dropLast_append_of_ne_nil _ (by simp), List.singleton_append,
      List.dropLast_cons_of_ne_nil hne, ih]

theorem foldl_format_can_data (data : Fin 8 → Fin 256) (length : Fin 256) (buffer_size : Nat)
    (hsz : buffer_size < 4294967296) (l : List (Fin 8)) (buffer : List Char)
    (hroom : buffer.length + 3 * (l.filter (fun i => decide (i.val < length.val))).length + 1
      ≤ buffer_size) :
    l.foldl (fun buffer i =>
        if i.val < length.val then
          strncat buffer ((fmt_02X (data i).val ++ [' ']).take 3)
            ((buffer_size + 4294967296 - buffer.length - 1) % 4294967296)
        else buffer) buffer
      = buffer ++ (((l.filter (fun i => decide (i.val < length.val))).map
          (fun i => hex_token (data i))).map (fun t => t ++ [' '])).foldr
            (fun a b => a ++ b) [] := by
  induction l generalizing buffer with
  | nil => simp
  | cons i l ih =>
    by_cases h : i.val < length.val
    · simp only [List.filter_cons, h, decide_True, if_true, List.length_cons] at hroom
      have hbound : (buffer_size + 4294967296 - buffer.length - 1) % 4294967296
          = buffer_size - buffer.length - 1 := by omega
      have htemp : strncat buffer ((fmt_02X (data i).val ++ [' ']).take 3)
          ((buffer_size + 4294967296 - buffer.length - 1) % 4294967296)
          = buffer ++ (hex_token (data i) ++ [' ']) := by
        have e1 : (fmt_02X (data i).val ++ [' ']).take 3 = hex_token (data i) ++ [' '] := by
          rw [fmt_02X_byte]
          rfl
        have e2 : (hex_token (data i) ++ [' ']).length ≤ buffer_size - buffer.length - 1 := by
          simp only [hex_token, List.length_append, List.length_cons, List.length_nil]
          omega
        rw [hbound, e1]
        unfold strncat
        rw [List.take_of_length_le e2]
      simp only [List.foldl_cons, h, if_true, htemp, List.filter_cons, decide_True,
        List.map_cons, List.foldr_cons]
      rw [ih _ (by simp [hex_token]; omega), List.append_assoc]
    · simp only [List.filter_cons, h, decide_False] at hroom
      simp only [List.foldl_cons, h, if_false, List.filter_cons, decide_False]
      exact ih _ (by simpa using hroom)

theorem idx8_filter_lt (length : Fin 256) :
    idx8.filter (fun i => decide (i.val < length.val)) = idx8.take (min length.val 8) := by
  obtain ⟨n, hn⟩ := length
  by_cases h8 : 8 ≤ n
  · have hmin : min n 8 = 8 := by omega
    have hall : ∀ i : Fin 8, decide (i.val < n) = true := fun i => by
      have := i.isLt
      simp; omega
    simp [hmin, idx8, List.filter_cons, hall]
  · have h : n < 8 := by omega
    interval_cases n <;> rfl


theorem join_spaces_length : ∀ ts : List (List Char), (∀ t ∈ ts, t.length = 2) →
    (join_spaces ts).length = 3 * ts.length - 1
  | [], _ => rfl
  | [t], h => by simp [join_spaces, h t]
  | t :: u :: ts, h => by
    have ih := join_spaces_length (u :: ts) (fun x hx => h x (List.mem_cons_of_mem _ hx))
    have ht := h t (List.mem_cons_self _ _)
    simp only [join_spaces, List.length_append, List.length_cons] at ih ⊢
    omega

theorem join_spaces_head : ∀ bs : List (Fin 256),
    (join_spaces (bs.map hex_token)).head? = bs.head?.map (fun b => upperDigit (b.val / 16))
  | [] => rfl
  | [_] => rfl
  | _ :: _ :: _ => rfl

theorem join_spaces_getLast : ∀ bs : List (Fin 256),
    (join_spaces (bs.map hex_token)).getLast?
      = bs.getLast?.map (fun b => upperDigit (b.val % 16))
  | [] => rfl
  | [_] => rfl
  | b :: c :: bs => by
    have ih := join_spaces_getLast (c :: bs)
    have hne : join_spaces ((c :: bs).map hex_token) ≠ [] := by
      cases bs <;> simp [join_spaces, hex_token]
    simp only [List.map_cons, join_spaces] at ih hne ⊢
    obtain ⟨x, hx⟩ : ∃ x, (c :: bs).getLast? = some x :=
      ⟨_, List.getLast?_eq_getLast _ (List.cons_ne_nil c bs)⟩
    rw [List.getLast?_append_of_ne_nil _ (by simp), List.getLast?_cons, ih,
      List.getLast?_cons_cons, hx]
    rfl

/-- C11 (as amended). Called with a buffer of at least `3 * n + 1` bytes, where
`n = min(length, 8)` (25 bytes are enough for every length; the monitor passes 32),
`format_can_data` leaves in the buffer the first `n` payload bytes as two-digit upper-case hex
tokens separated by single spaces: the empty string when `n = 0`, otherwise `3 * n - 1`
characters, with neither a leading nor a trailing space. -/
theorem format_can_data_payload_text (data : Fin 8 → Fin 256) (length : Fin 256)
    (buffer_size : Nat) (hroom : 3 * min length.val 8 + 1 ≤ buffer_size)
    (hsz : buffer_size < 4294967296) :
    format_can_data data length buffer_size = payload_text data length ∧
    (min length.val 8 = 0 → format_can_data data length buffer_size = []) ∧
    (0 < min length.val 8 →
      (format_can_data data length buffer_size).length = 3 * min length.val 8 - 1) ∧
    (format_can_data data length buffer_size).head? ≠ some ' ' ∧
    (format_can_data data length buffer_size).getLast? ≠ some ' ' := by
  have hlen : (idx8.take (min length.val 8)).length = min length.val 8 := by
    simp only [List.length_take, idx8, List.length_cons, List.length_nil]
    omega
  have hfold := foldl_format_can_data data length buffer_size hsz idx8 []
    (by rw [idx8_filter_lt, hlen]; simpa using hroom)
  have key : format_can_data data length buffer_size = payload_text data length := by
    have htrim : ∀ b : List Char, (if b.length > 0 then b.dropLast else b) = b.dropLast := by
      intro b
      cases b <;> simp
    unfold format_can_data payload_text
    simp only [hfold, List.nil_append, idx8_filter_lt]
    rw [htrim, dropLast_spaced_tokens]
  have hkey2 : payload_text data length
      = join_spaces (((idx8.take (min length.val 8)).map data).map hex_token) := by
    simp [payload_text, List.map_map, Function.comp_def]
  refine ⟨key, ?_, ?_, ?_, ?_⟩
  · intro h0
    rw [key, payload_text, h0]
    rfl
  · intro _
    have h2 : ∀ t ∈ (idx8.take (min length.val 8)).map (fun i => hex_token (data i)),
        t.length = 2 := by
      intro t ht
      obtain ⟨i, _, rfl⟩ := List.mem_map.mp ht
      rfl
    rw [key, payload_text, join_spaces_length _ h2, List.length_map, hlen]
  · rw [key, hkey2, join_spaces_head]
    cases ((idx8.take (min length.val 8)).map data).head? with
    | none => simp
    | some b => simpa using upperDigit_ne_space _
  · rw [key, hkey2, join_spaces_getLast]
    cases ((idx8.take (min length.val 8)).map data).getLast? with
    | none => simp
    | some b => simpa using upperDigit_ne_space _

theorem format_can_data_payload_text_witness :
    format_can_data payload_1_to_8 8 32 = payload_text payload_1_to_8 8 ∧
    (format_can_data payload_1_to_8 8 32).length = 23 :=
  ⟨(format_can_data_payload_text payload_1_to_8 8 32 (by decide) (by decide)).1,
   (format_can_data_payload_text payload_1_to_8 8 32 (by decide) (by decide)).2.2.1
     (by decide)⟩

/-- C11, as stated, fails at the smallest buffer it allows: with 24 bytes and a payload of
length 8 the last `strncat` may append two characters only, the final space is not written, and
the trim removes the last hex digit; 22 characters are left instead of 23. -/
theorem format_can_data_truncates_at_24 :
    format_can_data payload_1_to_8 8 24 = "01 02 03 04 05 06 07 0".toList ∧
    payload_text payload_1_to_8 8 = "01 02 03 04 05 06 07 08".toList ∧
    (format_can_data payload_1_to_8 8 24).length = 22 ∧
    (format_can_data payload_1_to_8 8 24).length ≠ 3 * min (8 : Fin 256).val 8 - 1 := by
  refine ⟨by decide, by decide, by decide, by decide⟩

end CanLogger
